import Mathlib

/-!
Verification development for the salt state engine (`salt/state.py`).

The engine's data is Python dicts/lists/strings.  We embed them shallowly:

* `Value` is the universe of values stored in a chunk: strings, lists, dicts.
* A Python dict with string keys is an association list `List (String × Value)`
  with Python's semantics: assignment replaces the value of an existing key in
  place, otherwise appends; insertion order is preserved.  Dicts built by the
  engine never hold duplicate keys.
* External collaborators (the action catalog `self.states`, the renderer
  `self.rend`, the file system) are parameters of the embedded functions.
-/

inductive Value where
  | vstr : String → Value
  | vlist : List Value → Value
  | vdict : List (String × Value) → Value

/-- Python dict lookup `m[k]` / `m.get(k)` on a string-keyed association list. -/
def aget {α : Type} : List (String × α) → String → Option α
  | [], _ => none
  | p :: m, k => if p.1 = k then some p.2 else aget m k

/-- Python dict assignment `m[k] = v`: replace in place if the key exists,
otherwise append at the end (insertion order). -/
def aset {α : Type} : List (String × α) → String → α → List (String × α)
  | [], k, v => [(k, v)]
  | p :: m, k, v => if p.1 = k then (k, v) :: m else p :: aset m k v

/-- Key list of an association list (Python `m.keys()`, insertion order). -/
def akeys {α : Type} (m : List (String × α)) : List String := m.map Prod.fst

/-- A chunk ("low data"): a Python dict from string keys to values. -/
abbrev Chunk := List (String × Value)

/-- Body of one high-data target name: state-module name ↦ run list. -/
abbrev Body := List (String × List Value)

/-- High data: target name ↦ body. -/
abbrev High := List (String × Body)

/-- String lookup `c[k]` where the engine expects the value to be a string
(`state`, `name`, `fun`).  A missing or non-string value, which would raise in
Python, is mapped to `""`; every claim below only involves chunks where these
keys are present strings. -/
def getS (c : Chunk) (k : String) : String :=
  match aget c k with
  | some (.vstr s) => s
  | _ => ""

/-- Python `dict.update(d)`: assign every key/value pair of `d` in order. -/
def dictUpdate (c : Chunk) (d : List (String × Value)) : Chunk :=
  d.foldl (fun c' kv => aset c' kv.1 kv.2) c

/-- Python `set.add` modelled on a duplicate-free list: Python set iteration
order is implementation defined; we fix insertion order.  Everything proved
below is independent of that order except which function name an aliased chunk
ends up with, where the source itself is order dependent (see `expandChunk`). -/
def addSet (l : List String) (x : String) : List String :=
  if x ∈ l then l else l ++ [x]

/-- Python `names.update(val)` in `compile_high_data`: `val` is the value of a
`names` key, a list of strings.  Non-list values / non-string members (which
Python would iterate or reject in its own way) are elided; no claim involves
them. -/
def namesUpdate (ns : List String) (v : Value) : List String :=
  match v with
  | .vlist vs => vs.foldl (fun acc u =>
      match u with
      | .vstr s => addSet acc s
      | _ => acc) ns
  | _ => ns

/-- Processing of one dict element of a run list (`state.py` lines 134-140):
for each key of the dict, a `names` key adds its value to the alternate-name
set, while ANY other key triggers `chunk.update(arg)` with the WHOLE dict —
including its `names` key, if it has one.  This is the source's literal
behavior, not a simplification. -/
def procDictArg (cn : Chunk × List String) (d : List (String × Value)) :
    Chunk × List String :=
  d.foldl (fun acc kv =>
    if kv.1 = "names" then (acc.1, namesUpdate acc.2 kv.2)
    else (dictUpdate acc.1 d, acc.2)) cn

/-- Processing of a whole run list (`state.py` lines 128-140): bare strings
accumulate into the `funcs` set, dict elements are handled by `procDictArg`;
elements of any other type are skipped by the source's type tests.
Returns (chunk template, funcs, names). -/
def procRun (chunk0 : Chunk) (run : List Value) : Chunk × List String × List String :=
  run.foldl (fun acc arg =>
    match arg with
    | .vstr f => (acc.1, addSet acc.2.1 f, acc.2.2)
    | .vdict d =>
        let cn := procDictArg (acc.1, acc.2.2) d
        (cn.1, acc.2.1, cn.2)
    | _ => acc) (chunk0, [], [])

/-- Last element of the funcs set in iteration order (used by `expandChunk`). -/
def lastFun (funcs : List String) : String := (funcs.getLast?).getD ""

/-- Chunk expansion (`state.py` lines 141-152).  In the source, `live` is
deep-copied from the template once per alternate name (or once in total when
there are no alternate names) and then the SAME dict object is mutated and
appended once per function: `for fun in funcs: live['fun'] = fun;
chunks.append(live)`.  All appended references alias one dict, so when the
function returns (and when `sorted` reads the keys) every one of them carries
the LAST iterated function name.  A pure embedding must take that final state:
one appended chunk per (name, function) pair, each bearing `lastFun funcs`. -/
def expandChunk (chunk : Chunk) (funcs names : List String) : List Chunk :=
  if names ≠ [] then
    names.flatMap (fun n =>
      funcs.map (fun _ =>
        aset (aset chunk "name" (.vstr n)) "fun" (.vstr (lastFun funcs))))
  else
    funcs.map (fun _ => aset chunk "fun" (.vstr (lastFun funcs)))

/-- Sort key of `compile_high_data` (`state.py` line 154):
`k['state'] + k['name'] + k['fun']`, plain concatenation without dots. -/
def sortKey (c : Chunk) : String :=
  getS c "state" ++ getS c "name" ++ getS c "fun"

/-- Lexicographic less-or-equal on character lists, by code point.  This is
Python 2's `str` comparison (byte-wise lexicographic) on the ASCII strings the
engine sorts by. -/
def charListLE : List Char → List Char → Bool
  | [], _ => true
  | _ :: _, [] => false
  | a :: as, b :: bs =>
    if a.toNat < b.toNat then true
    else if b.toNat < a.toNat then false
    else charListLE as bs

/-- String comparison used by Python's `sorted` on the concatenated key. -/
def strLE (a b : String) : Bool := charListLE a.data b.data

/-- Comparison used to model Python's stable `sorted(chunks, key=...)`. -/
def chunkLE (a b : Chunk) : Prop := strLE (sortKey a) (sortKey b) = true

instance : DecidableRel chunkLE := fun a b =>
  inferInstanceAs (Decidable (strLE (sortKey a) (sortKey b) = true))

instance : IsTotal Chunk chunkLE := ⟨fun a b => by
  show charListLE (sortKey a).data (sortKey b).data = true ∨
    charListLE (sortKey b).data (sortKey a).data = true
  generalize (sortKey a).data = as
  generalize (sortKey b).data = bs
  induction as generalizing bs with
  | nil => left; rfl
  | cons a as ih =>
    cases bs with
    | nil => right; rfl
    | cons b bs =>
      rcases Nat.lt_trichotomy a.toNat b.toNat with h | h | h
      · left; simp [charListLE, h]
      · rcases ih bs with h2 | h2
        · left
          simp [charListLE, show ¬ a.toNat < b.toNat by omega,
            show ¬ b.toNat < a.toNat by omega, h2]
        · right
          simp [charListLE, show ¬ b.toNat < a.toNat by omega,
            show ¬ a.toNat < b.toNat by omega, h2]
      · right; simp [charListLE, h]⟩

instance : IsTrans Chunk chunkLE := ⟨fun x y z hxy hyz => by
  have h : ∀ as bs cs : List Char, charListLE as bs = true → charListLE bs cs = true →
      charListLE as cs = true := by
    intro as
    induction as with
    | nil => intro bs cs _ _; rfl
    | cons a as ih =>
      intro bs cs h1 h2
      cases bs with
      | nil => simp [charListLE] at h1
      | cons b bs =>
        cases cs with
        | nil => simp [charListLE] at h2
        | cons c cs =>
          simp only [charListLE] at h1 h2 ⊢
          rcases Nat.lt_trichotomy a.toNat b.toNat with hab | hab | hab
          · rcases Nat.lt_trichotomy b.toNat c.toNat with hbc | hbc | hbc
            · simp [show a.toNat < c.toNat by omega]
            · simp [show a.toNat < c.toNat by omega]
            · simp [show ¬ b.toNat < c.toNat by omega,
                show c.toNat < b.toNat by omega] at h2
          · rcases Nat.lt_trichotomy b.toNat c.toNat with hbc | hbc | hbc
            · simp [show a.toNat < c.toNat by omega]
            · simp only [show ¬ a.toNat < b.toNat by omega,
                show ¬ b.toNat < a.toNat by omega, if_false, ite_false, if_neg,
                not_false_eq_true] at h1
              simp only [show ¬ b.toNat < c.toNat by omega,
                show ¬ c.toNat < b.toNat by omega, if_false, ite_false, if_neg,
                not_false_eq_true] at h2
              simp only [show ¬ a.toNat < c.toNat by omega,
                show ¬ c.toNat < a.toNat by omega, if_false, ite_false, if_neg,
                not_false_eq_true]
              exact ih bs cs h1 h2
            · simp [show ¬ b.toNat < c.toNat by omega,
                show c.toNat < b.toNat by omega] at h2
          · simp [show ¬ a.toNat < b.toNat by omega,
              show b.toNat < a.toNat by omega] at h1
  exact h (sortKey x).data (sortKey y).data (sortKey z).data hxy hyz⟩

/-- `State.compile_high_data` (`state.py` lines 118-154): flatten high data
into chunks and sort them by `sortKey`.  Python's `sorted` is a stable sort by
key; `List.insertionSort` with the key comparison is such a sort. -/
def compile_high_data (high : High) : List Chunk :=
  let chunks := high.flatMap (fun nb =>
    nb.2.flatMap (fun sr =>
      let chunk0 : Chunk := [("state", .vstr sr.1), ("name", .vstr nb.1)]
      let pr := procRun chunk0 sr.2
      expandChunk pr.1 pr.2.1 pr.2.2))
  List.insertionSort chunkLE chunks

/-! ## Dependency executor (`state.py` lines 176-261)

The action catalog and the call binder (`State.call`, which binds a chunk's
parameters against the registered action's signature and invokes it) are
external collaborators here; the executor only observes the returned result
dict `{changes, result, comment}`.  We therefore abstract `self.call` as an
oracle `call : Chunk → StateResult` and instrument the executor with a trace
recording the tag of every chunk whose action is invoked — the ledger
component matches the source exactly, and the trace is the observation needed
to settle "the action is (not) invoked" claims. -/

/-- Result dict of one action: `{'changes': ..., 'result': bool, 'comment': str}`. -/
structure StateResult where
  changes : Option Value
  result : Bool
  comment : String

/-- Run ledger: Python dict tag ↦ result (the `running` variable). -/
abbrev Ledger := List (String × StateResult)

/-- Executor state: the run ledger plus the instrumentation trace of tags
whose action was invoked, in invocation order. -/
structure ExecState where
  running : Ledger
  trace : List String

/-- Tag of a chunk (`state.py` lines 211 and 228):
`low['state'] + '.' + low['name'] + '.' + low['fun']`. -/
def tagOf (c : Chunk) : String :=
  getS c "state" ++ "." ++ getS c "name" ++ "." ++ getS c "fun"

/-- Python `low.has_key('require')`. -/
def hasRequire (c : Chunk) : Bool := (aget c "require").isSome

/-- Requirement pairs of a chunk: `low['require']` is a list of single-entry
dicts `{required-state: required-name}`; the source reads `req.keys()[0]` and
`req[req.keys()[0]]`.  Entries on which Python's `keys()[0]` access would
raise (non-dicts, empty dicts) and entries whose value is not a string (whose
equality test against a string name is always false in Python) are elided; no
claim involves them. -/
def reqPairs (c : Chunk) : List (String × String) :=
  match aget c "require" with
  | some (.vlist rs) => rs.filterMap (fun r =>
      match r with
      | .vdict ((k, .vstr v) :: _) => some (k, v)
      | _ => none)
  | _ => []

/-- Requirement resolution (`state.py` lines 204-208 and 232-237): for each
requirement pair, linearly scan the full chunk list for chunks whose `name`
equals the pair's value and whose `state` equals the pair's key. -/
def resolveReqs (chunks : List Chunk) (low : Chunk) : List Chunk :=
  (reqPairs low).flatMap (fun rq =>
    chunks.filter (fun c =>
      decide (getS c "name" = rq.2) && decide (getS c "state" = rq.1)))

/-- Individual status of one resolved requirement (`state.py` lines 210-215):
`unmet` if its tag has no ledger entry, else `met`/`fail` by the truth of the
recorded `result`. -/
def reqStat (running : Ledger) (req : Chunk) : String :=
  match aget running (tagOf req) with
  | none => "unmet"
  | some r => if r.result then "met" else "fail"

/-- Aggregation loop of `check_requires` (`state.py` lines 216-221): return
the FIRST status in list order that is `unmet` or `fail`; `met` if none is. -/
def scanStats : List String → String
  | [] => "met"
  | stat :: rest =>
    if stat = "unmet" then stat
    else if stat = "fail" then stat
    else scanStats rest

/-- `State.check_requires` (`state.py` lines 196-221).  The source's dead
initial assignment `status = 'unmet'` (overwritten before any use) is not
modelled. -/
def check_requires (low : Chunk) (running : Ledger) (chunks : List Chunk) : String :=
  if hasRequire low then
    scanStats ((resolveReqs chunks low).map (reqStat running))
  else "met"

/-- Synthetic failure result recorded for a chunk whose requirement failed
(`state.py` lines 244-246).  Note the comment's exact text. -/
def synthFail : StateResult :=
  { changes := none, result := false, comment := "One or more require failed" }

/-- Sequential threading of the executor state through a list of chunks:
`for chunk in cs: running = step(chunk, running)` with failure propagation of
the fuel device.  Used for the recursive requirement loop (`state.py` lines
238-239) and, at top level, for `call_chunks` (lines 191-193). -/
def run_reqs (step : Chunk → ExecState → Option ExecState) :
    List Chunk → ExecState → Option ExecState
  | [], s => some s
  | c :: cs, s => (step c s).bind (run_reqs step cs)

/-- `State.call_chunk` (`state.py` lines 223-249).  The source recurses
without any cycle guard; `fuel` is the totality device of the embedding, and
`none` means the recursion did not bottom out within `fuel` nesting levels
(which on cyclic require graphs it never does).  A returned `some` is exactly
the source's behavior.  Branch order and branch bodies mirror the source:
there is no ledger-presence check before executing, and the final fallback
(reached for no status the source can produce) returns `running` unchanged,
as the Python `if/elif/elif` chain would. -/
def call_chunk (call : Chunk → StateResult) (chunks : List Chunk) :
    Nat → Chunk → ExecState → Option ExecState
  | 0, _, _ => none
  | fuel + 1, low, s =>
    let tag := tagOf low
    if hasRequire low then
      let status := check_requires low s.running chunks
      if status = "unmet" then
        (run_reqs (call_chunk call chunks fuel) (resolveReqs chunks low) s).bind
          (call_chunk call chunks fuel low)
      else if status = "met" then
        some ⟨aset s.running tag (call low), s.trace ++ [tag]⟩
      else if status = "fail" then
        some ⟨aset s.running tag synthFail, s.trace⟩
      else
        some s
    else
      some ⟨aset s.running tag (call low), s.trace ++ [tag]⟩

/-- `State.call_chunks` (`state.py` lines 187-194): thread an empty ledger
through `call_chunk` over the whole chunk list. -/
def call_chunks (call : Chunk → StateResult) (chunks : List Chunk) (fuel : Nat) :
    Option ExecState :=
  run_reqs (call_chunk call chunks fuel) chunks ⟨[], []⟩

/-! ## Chunk validation and `call_high` (`state.py` lines 40-77 and 251-261) -/

/-- Declared signature of a registered action, as `inspect.getargspec` reports
it to `verify_data`: the ordered parameter names (`aspec[0]`) and the number
of trailing parameters that carry default values (`len(aspec[3])`, zero when
the defaults tuple is `None`). -/
structure ArgSpec where
  args : List String
  nDefaults : Nat

/-- Action catalog `self.states`: `"state.fun"` ↦ declared signature.  The
callables themselves are external; `verify_data` consults only signatures. -/
abbrev Catalog := List (String × ArgSpec)

/-- `State.verify_data` (`state.py` lines 40-68): field presence, catalog
membership, then presence of every required (defaultless) parameter, keeping
the source's error strings verbatim (including its `paramater` typo). -/
def verify_data (states : Catalog) (data : Chunk) : List String :=
  let errors :=
    (if (aget data "state").isNone then ["Missing \"state\" data"] else []) ++
    (if (aget data "fun").isNone then ["Missing \"fun\" data"] else []) ++
    (if (aget data "name").isNone then ["Missing \"name\" data"] else [])
  if errors ≠ [] then errors
  else
    let full := getS data "state" ++ "." ++ getS data "fun"
    match aget states full with
    | none => ["Specified state " ++ full ++ " is unavailable."]
    | some aspec =>
        ((aspec.args.take (aspec.args.length - aspec.nDefaults)).filter
          (fun a => (aget data a).isNone)).map
          (fun a => "Missing paramater " ++ a ++ " for state " ++ full)

/-- `State.verify_chunks` (`state.py` lines 70-77): concatenate the errors of
every chunk (`err += self.verify_data(chunk)`). -/
def verify_chunks (states : Catalog) (chunks : List Chunk) : List String :=
  chunks.foldl (fun err chunk => err ++ verify_data states chunk) []

/-- Result of `call_high`: the Python value is either the list of validation
errors or the run ledger returned by `call_chunks`. -/
inductive HighCallResult where
  | errors : List String → HighCallResult
  | ledger : ExecState → HighCallResult

/-- `State.call_high` (`state.py` lines 251-261): compile, verify, and either
return the non-empty error list (before `call_chunks` is ever entered) or run
the chunks.  `none` only reports fuel exhaustion of the executor embedding. -/
def call_high (states : Catalog) (call : Chunk → StateResult) (fuel : Nat)
    (high : High) : Option HighCallResult :=
  let chunks := compile_high_data high
  let errors := verify_chunks states chunks
  if errors ≠ [] then some (.errors errors)
  else (call_chunks call chunks fuel).map .ledger

/-! ## Template compilation and entry points
(`state.py` lines 156-174 and 263-279)

The file system and the configured renderer are external collaborators:
`isfile` stands for `os.path.isfile`, and the renderer for
`self.rend[self.opts['renderer']]`.  For `compile_template_str` the renderer
is `Except`-valued so that a raising renderer (Python exception propagation)
is distinguishable from a normal return. -/

/-- `State.compile_template` (`state.py` lines 156-163): an empty dict for a
non-file path, otherwise the renderer's output on the path. -/
def compile_template (isfile : String → Bool) (rend : String → High)
    (template : String) : High :=
  if ¬ isfile template then [] else rend template

/-- `State.compile_template_str` (`state.py` lines 165-174).  The source
writes the literal text to a fresh `tempfile.mkstemp()` path, runs the
renderer on that path, then calls `os.remove` — with NO `try/finally`.  The
second component records whether the transient file has been removed when the
function is left.  On a renderer exception (`Except.error`) control leaves
the function before the `os.remove` line, so the file is still present; on a
normal return the remove runs.  The renderer is given the template text, as
the transient file's content is exactly that text. -/
def compile_template_str (rend : String → Except String High)
    (template : String) : Except String High × Bool :=
  match rend template with
  | .error e => (.error e, false)
  | .ok high => (.ok high, true)

/-- Result of the template entry points: Python returns the (empty) high data
itself when it is falsy, otherwise whatever `call_high` returned. -/
inductive TemplateCallResult where
  | highData : High → TemplateCallResult
  | executed : HighCallResult → TemplateCallResult

/-- `State.call_template` (`state.py` lines 263-270): compile the path; if
the high data is non-empty (Python truthiness of a dict) run `call_high`,
otherwise return the empty high data unchanged. -/
def call_template (states : Catalog) (call : Chunk → StateResult)
    (isfile : String → Bool) (rend : String → High) (fuel : Nat)
    (template : String) : Option TemplateCallResult :=
  let high := compile_template isfile rend template
  if high.isEmpty then some (.highData high)
  else (call_high states call fuel high).map .executed

/-- `State.call_template_str` (`state.py` lines 272-279): like
`call_template` but over a literal string via `compile_template_str`; a
renderer exception propagates out of the function. -/
def call_template_str (states : Catalog) (call : Chunk → StateResult)
    (rend : String → Except String High) (fuel : Nat) (template : String) :
    Except String (Option TemplateCallResult) :=
  match (compile_template_str rend template).1 with
  | .error e => .error e
  | .ok high =>
      if high.isEmpty then .ok (some (.highData high))
      else .ok ((call_high states call fuel high).map .executed)

/-! ## Concrete inputs for counterexamples and witnesses

Each claim gets its own inputs.  Suffixes: `A`/`B` are plain chunks, `low` the
chunk under scrutiny, `run` a pre-existing ledger, `call` an action oracle. -/

/-- C1: a chunk whose `require` list resolves a FAILED requirement before an
UNMET one ("f1.foo.x" has a failed ledger entry, "p1.bar.y" has none). -/
def c1A : Chunk := [("state", .vstr "f1"), ("name", .vstr "foo"), ("fun", .vstr "x")]

def c1B : Chunk := [("state", .vstr "p1"), ("name", .vstr "bar"), ("fun", .vstr "y")]

def c1low : Chunk := [("state", .vstr "s"), ("name", .vstr "l"), ("fun", .vstr "f"),
  ("require", .vlist [.vdict [("f1", .vstr "foo")], .vdict [("p1", .vstr "bar")]])]

def c1run : Ledger := [("f1.foo.x", ⟨none, false, "boom"⟩)]

def c1chunks : List Chunk := [c1A, c1B]

/-- C2: `w2B` requires `w2A` and sorts before it, so `w2A` is resolved as a
dependency first and then reached again by the top-level loop.  The require
graph is acyclic (`w2A` requires nothing). -/
def w2A : Chunk := [("state", .vstr "b"), ("name", .vstr "x"), ("fun", .vstr "f")]

def w2B : Chunk := [("state", .vstr "a"), ("name", .vstr "y"), ("fun", .vstr "g"),
  ("require", .vlist [.vdict [("b", .vstr "x")]])]

def w2chunks : List Chunk := [w2B, w2A]

def w2call : Chunk → StateResult := fun _ => ⟨none, true, "ok"⟩

/-- C2 witness state: the executor state that `call_chunks` actually computes
on `w2chunks` (`getD` of the defaulted option lets the equation
`call_chunks ... = some w2state` hold by reduction). -/
def w2state : ExecState := (call_chunks w2call w2chunks 5).getD ⟨[], []⟩

/-- C3: one rule with two functions and two alternate names. -/
def h3 : High :=
  [("x", [("st", [.vstr "f", .vstr "g",
    .vdict [("names", .vlist [.vstr "a", .vstr "b"])]])])]

/-- C4: one dict element mixing `names` with another parameter key. -/
def h4 : High :=
  [("n", [("st", [.vstr "f",
    .vdict [("names", .vlist [.vstr "a"]), ("x", .vstr "1")]])])]

/-- C5: a chunk with a single requirement whose ledger entry is a failure. -/
def c5A : Chunk := [("state", .vstr "f1"), ("name", .vstr "foo"), ("fun", .vstr "x")]

def c5low : Chunk := [("state", .vstr "s"), ("name", .vstr "l"), ("fun", .vstr "f"),
  ("require", .vlist [.vdict [("f1", .vstr "foo")]])]

def c5run : Ledger := [("f1.foo.x", ⟨none, false, "boom"⟩)]

def c5chunks : List Chunk := [c5A]

def c5call : Chunk → StateResult := fun _ => ⟨none, true, "ok"⟩

def c5state : ExecState := ⟨c5run, []⟩

/-- C6: high data whose single compiled chunk names a state absent from the
empty catalog (validation error), and a one-entry catalog making the same
chunk pass validation. -/
def h6 : High := [("n", [("st", [.vstr "f"])])]

def w6states : Catalog := [("st.f", ⟨["name"], 0⟩)]

def w6call : Chunk → StateResult := fun _ => ⟨none, true, "ok"⟩

/-- C8: a chunk with no `require` key. -/
def w8low : Chunk := [("state", .vstr "pkg"), ("name", .vstr "nginx"), ("fun", .vstr "installed")]

def w8call : Chunk → StateResult := fun c => ⟨none, true, getS c "name" ++ " done"⟩

/-- C7/C10: a renderer that raises, a renderer that returns empty high data,
and a file-system oracle with no files. -/
def c7rend : String → Except String High := fun _ => .error "render failure"

def w10rendE : String → Except String High := fun _ => .ok []

def w10rend : String → High := fun _ => []

def w10isfile : String → Bool := fun _ => false

/-- Well-formedness of a chunk's `require` value: when present, it is a list
of single-entry `{state: name}` dicts with string values — the only shape the
source's `req.keys()[0]` / `req[...]` access pattern processes without
raising.  Scopes the executor theorems to inputs on which the embedding is
faithful to Python. -/
def wfReq (c : Chunk) : Bool :=
  match aget c "require" with
  | none => true
  | some (.vlist rs) => rs.all (fun r =>
      match r with
      | .vdict [(_, .vstr _)] => true
      | _ => false)
  | some _ => false

def w10call : Chunk → StateResult := fun _ => ⟨none, true, "ok"⟩

/-! ## Association-list (Python dict) lemmas -/

theorem akeys_cons {α : Type} (p : String × α) (m : List (String × α)) :
    akeys (p :: m) = p.1 :: akeys m := rfl

theorem aset_cons_eq {α : Type} {p : String × α} {m : List (String × α)}
    {k : String} (h : p.1 = k) (v : α) : aset (p :: m) k v = (k, v) :: m := by
  simp [aset, h]

theorem aset_cons_ne {α : Type} {p : String × α} {m : List (String × α)}
    {k : String} (h : ¬ p.1 = k) (v : α) : aset (p :: m) k v = p :: aset m k v := by
  simp [aset, h]

theorem aget_aset_self {α : Type} (m : List (String × α)) (k : String) (v : α) :
    aget (aset m k v) k = some v := by
  induction m with
  | nil => simp [aset, aget]
  | cons p m ih =>
    by_cases h : p.1 = k
    · rw [aset_cons_eq h, aget]
      simp
    · rw [aset_cons_ne h, aget]
      simp [h, ih]

theorem mem_akeys_aset {α : Type} (m : List (String × α)) (k k' : String) (v : α) :
    k' ∈ akeys (aset m k v) ↔ k' ∈ akeys m ∨ k' = k := by
  induction m with
  | nil => simp [aset, akeys]
  | cons p m ih =>
    by_cases h : p.1 = k
    · rw [aset_cons_eq h v, akeys_cons, akeys_cons, h]
      simp only [List.mem_cons]
      tauto
    · rw [aset_cons_ne h v, akeys_cons, akeys_cons]
      simp only [List.mem_cons, ih]
      tauto

theorem nodup_akeys_aset {α : Type} (m : List (String × α)) (k : String) (v : α)
    (h : (akeys m).Nodup) : (akeys (aset m k v)).Nodup := by
  induction m with
  | nil => simp [aset, akeys]
  | cons p m ih =>
    rw [akeys_cons, List.nodup_cons] at h
    by_cases hpk : p.1 = k
    · rw [aset_cons_eq hpk v, akeys_cons, List.nodup_cons]
      exact ⟨hpk ▸ h.1, h.2⟩
    · rw [aset_cons_ne hpk v, akeys_cons, List.nodup_cons]
      refine ⟨fun hmem => ?_, ih h.2⟩
      rcases (mem_akeys_aset m k p.1 v).mp hmem with h1 | h1
      · exact h.1 h1
      · exact hpk h1

/-! ## Status-aggregation lemmas for `check_requires` -/

theorem scanStats_met_or_mem : ∀ l : List String, scanStats l = "met" ∨ scanStats l ∈ l := by
  intro l
  induction l with
  | nil => left; rfl
  | cons s l ih =>
    by_cases h1 : s = "unmet"
    · right; simp [scanStats, h1]
    · by_cases h2 : s = "fail"
      · right; simp [scanStats, h1, h2]
      · rcases ih with h | h
        · left
          simp only [scanStats, if_neg h1, if_neg h2]
          exact h
        · right
          simp only [scanStats, if_neg h1, if_neg h2]
          exact List.mem_cons_of_mem s h

theorem reqStat_cases (running : Ledger) (req : Chunk) :
    reqStat running req = "met" ∨ reqStat running req = "unmet" ∨
      reqStat running req = "fail" := by
  unfold reqStat
  cases aget running (tagOf req) with
  | none => right; left; rfl
  | some r => cases hr : r.result <;> simp [hr]

theorem check_requires_cases (low : Chunk) (running : Ledger) (chunks : List Chunk) :
    check_requires low running chunks = "met" ∨
      check_requires low running chunks = "unmet" ∨
      check_requires low running chunks = "fail" := by
  unfold check_requires
  by_cases h : hasRequire low = true
  · simp only [h, if_true]
    rcases scanStats_met_or_mem ((resolveReqs chunks low).map (reqStat running)) with hm | hm
    · left; exact hm
    · rcases List.mem_map.mp hm with ⟨req, _, hreq⟩
      rw [← hreq]
      exact reqStat_cases running req
  · simp [h]

theorem scanStats_eq_find (l : List String)
    (hl : ∀ x ∈ l, x = "met" ∨ x = "unmet" ∨ x = "fail") :
    scanStats l = (l.find? (fun st => st != "met")).getD "met" := by
  induction l with
  | nil => rfl
  | cons s l ih =>
    rcases hl s (List.mem_cons_self s l) with h | h | h
    · subst h
      rw [show scanStats ("met" :: l) = scanStats l from by simp [scanStats],
        List.find?_cons_of_neg _ (by decide)]
      exact ih (fun x hx => hl x (List.mem_cons_of_mem _ hx))
    · subst h
      rw [show scanStats ("unmet" :: l) = "unmet" from by simp [scanStats],
        List.find?_cons_of_pos _ (by decide)]
      rfl
    · subst h
      rw [show scanStats ("fail" :: l) = "fail" from by simp [scanStats],
        List.find?_cons_of_pos _ (by decide)]
      rfl

/-! ## Claim theorems -/

/-- C1 (counterexample): the claim "if any required chunk is absent from the
ledger the status is 'unmet' (regardless of whether some other required chunk
recorded a failure)" is false on the code.  Here `c1low` requires `c1A`
(recorded as failed) and `c1B` (absent from the ledger); the required chunk
`c1B` has no ledger entry, yet `check_requires` returns `"fail"`, because the
aggregation loop returns the FIRST non-met status in order. -/
theorem C1_counterexample :
    (aget c1run (tagOf c1B)).isNone = true ∧
    reqStat c1run c1A = "fail" ∧
    check_requires c1low c1run c1chunks = "fail" := by decide

/-- C1 (amended): `check_requires` does not apply a fixed unmet-over-fail
precedence.  Its result is the individual status of the FIRST resolved
requirement, in resolution order, whose status is not `"met"` (`"unmet"` when
that requirement is absent from the ledger, `"fail"` when it recorded a
failure), and `"met"` when there is no such requirement (in particular when
there is no `require` key).  A failed requirement listed before an unmet one
therefore yields `"fail"`. -/
theorem C1_amended (low : Chunk) (running : Ledger) (chunks : List Chunk) :
    (check_requires low running chunks =
      (if hasRequire low then
        (((resolveReqs chunks low).map (reqStat running)).find?
          (fun st => st != "met")).getD "met"
      else "met")) ∧
    (∀ req : Chunk,
      (reqStat running req = "unmet" ↔ (aget running (tagOf req)).isNone = true) ∧
      (reqStat running req = "fail" ↔
        ∃ r, aget running (tagOf req) = some r ∧ r.result = false)) := by
  constructor
  · unfold check_requires
    by_cases h : hasRequire low = true
    · simp only [h, if_true]
      refine scanStats_eq_find _ (fun x hx => ?_)
      rcases List.mem_map.mp hx with ⟨req, _, hreq⟩
      rw [← hreq]
      exact reqStat_cases running req
    · simp [h]
  · intro req
    unfold reqStat
    cases hg : aget running (tagOf req) with
    | none => simp
    | some r => cases hr : r.result <;> simp [hr]

/-- C3 (code bug): for the rule `h3` with alternate names `[a, b]` and
functions `[f, g]`, `compile_high_data` does produce |names| × |functions| = 4
chunks, but the chunks of one alternate name are NOT independent copies with
their own `fun`: the source appends the same mutated dict for every function,
so both chunks for name `a` (and both for `b`) carry the same final function
`g`, and no chunk carries `f` at all — chunks for the same alternate name and
different functions do not carry distinct `fun` values. -/
theorem C3_code_bug :
    (compile_high_data h3).length = 4 ∧
    (compile_high_data h3).countP
      (fun c => decide (getS c "name" = "a") && decide (getS c "fun" = "g")) = 2 ∧
    (compile_high_data h3).countP
      (fun c => decide (getS c "name" = "b") && decide (getS c "fun" = "g")) = 2 ∧
    (compile_high_data h3).countP (fun c => decide (getS c "fun" = "f")) = 0 := by
  decide

/-- C4 (code bug): for the run-list dict element of `h4`, which mixes the
reserved `names` key with the parameter key `x`, the produced chunk DOES
contain a `names` parameter: the per-key loop calls `chunk.update(arg)` with
the whole dict for every non-`names` key, re-importing the `names` key it had
just pulled out. -/
theorem C4_code_bug :
    (compile_high_data h4).length = 1 ∧
    (compile_high_data h4).all (fun c => (aget c "names").isSome) = true ∧
    (compile_high_data h4).all (fun c => (aget c "x").isSome) = true := by
  decide

/-- C5 (counterexample): the claim's synthetic failure comment
`"one or more requirements failed"` is not what the code records; the code's
comment is `"One or more require failed"`.  Concretely, `c5low` has a failed
requirement and its resulting ledger entry carries the latter comment (with
no action invoked: the trace stays empty). -/
theorem C5_counterexample :
    check_requires c5low c5run c5chunks = "fail" ∧
    (call_chunk c5call c5chunks 3 c5low c5state).map
      (fun s => ((aget s.running (tagOf c5low)).map (fun r => r.comment), s.trace)) =
      some (some "One or more require failed", []) ∧
    "One or more require failed" ≠ "one or more requirements failed" := by
  decide

/-- C5 (amended): for every chunk whose dependency status is `"fail"`,
`call_chunk` records under the chunk's tag the synthetic failure result
`{changes: None, result: False, comment: "One or more require failed"}` and
never invokes the chunk's action — the returned state is exactly the input
state with that one ledger entry set and the invocation trace unchanged. -/
theorem C5_amended (call : Chunk → StateResult) (chunks : List Chunk) (fuel : Nat)
    (low : Chunk) (s : ExecState)
    (h : check_requires low s.running chunks = "fail") :
    call_chunk call chunks (fuel + 1) low s =
      some ⟨aset s.running (tagOf low) synthFail, s.trace⟩ := by
  have hreq : hasRequire low = true := by
    cases hr : hasRequire low
    · unfold check_requires at h
      rw [hr] at h
      simp at h
    · rfl
  simp [call_chunk, hreq, h]

/-- C5 (witness): the amended theorem applied to the concrete failed-require
input `c5low`. -/
theorem C5_amended_witness :
    check_requires c5low c5state.running c5chunks = "fail" ∧
    call_chunk c5call c5chunks 3 c5low c5state =
      some ⟨aset c5state.running (tagOf c5low) synthFail, c5state.trace⟩ :=
  ⟨by decide, C5_amended c5call c5chunks 2 c5low c5state (by decide)⟩

/-- C7 (counterexample): the claim that the transient file is removed on
every exit path of `compile_template_str` is false on the code: with a
renderer that raises (`c7rend`), the function is left through the exception
before the `os.remove` line, and the transient file is still present
(`removed = false`). -/
theorem C7_counterexample :
    (compile_template_str c7rend "some template text").1.isOk = false ∧
    (compile_template_str c7rend "some template text").2 = false := by decide

/-- C7 (amended): `compile_template_str` removes the transient file exactly
on the normal-return path: the renderer's outcome is passed through
unchanged, and the file has been removed iff the renderer returned normally;
on a renderer exception the file is left behind (there is no try/finally). -/
theorem C7_amended (rend : String → Except String High) (t : String) :
    (compile_template_str rend t).1 = rend t ∧
    ((compile_template_str rend t).2 = true ↔ (rend t).isOk = true) := by
  unfold compile_template_str
  cases rend t <;> simp [Except.isOk, Except.toBool]

/-- C8: for every chunk with no `require` key, `check_requires` returns
`"met"`, and `call_chunk` records under the chunk's tag exactly the value
returned by the chunk's action: the resulting state is the input state with
the ledger entry `tagOf low ↦ call low` set (and the invocation of the action
traced), and the ledger entry under the tag is precisely `call low`,
unmodified. -/
theorem C8_no_require (call : Chunk → StateResult) (chunks : List Chunk) (fuel : Nat)
    (low : Chunk) (s : ExecState) (h : hasRequire low = false) :
    check_requires low s.running chunks = "met" ∧
    call_chunk call chunks (fuel + 1) low s =
      some ⟨aset s.running (tagOf low) (call low), s.trace ++ [tagOf low]⟩ ∧
    (call_chunk call chunks (fuel + 1) low s).map
      (fun s2 => aget s2.running (tagOf low)) = some (some (call low)) := by
  refine ⟨?_, ?_, ?_⟩
  · unfold check_requires
    simp [h]
  · simp [call_chunk, h]
  · simp [call_chunk, h, aget_aset_self]

/-- C8 (witness): the theorem applied to the concrete require-free chunk
`w8low` with an empty ledger. -/
theorem C8_witness :
    hasRequire w8low = false ∧
    (check_requires w8low ([] : Ledger) ([] : List Chunk) = "met" ∧
     call_chunk w8call [] 1 w8low ⟨[], []⟩ =
       some ⟨aset [] (tagOf w8low) (w8call w8low), [] ++ [tagOf w8low]⟩ ∧
     (call_chunk w8call [] 1 w8low ⟨[], []⟩).map
       (fun s2 => aget s2.running (tagOf w8low)) = some (some (w8call w8low))) :=
  ⟨by decide, C8_no_require w8call [] 0 w8low ⟨[], []⟩ (by decide)⟩

/-- C9: the chunk list returned by `compile_high_data` is sorted with respect
to the concatenated `state ++ name ++ fun` string key (`chunkLE`).  The
claim's second half — repeated compilation of the same high data yields the
same ordered list — is definitional here: `compile_high_data` is a pure
function of its input, and the stable sort it models fixes the order of
equal-key chunks as well. -/
theorem C9_sorted (high : High) : List.Sorted chunkLE (compile_high_data high) := by
  unfold compile_high_data
  exact List.sorted_insertionSort chunkLE _

/-! ## Executor ledger lemmas (toward C2) -/

theorem call_chunk_succ (call : Chunk → StateResult) (chunks : List Chunk)
    (n : Nat) (low : Chunk) (s : ExecState) :
    call_chunk call chunks (n + 1) low s =
      (if hasRequire low then
        (if check_requires low s.running chunks = "unmet" then
          (run_reqs (call_chunk call chunks n) (resolveReqs chunks low) s).bind
            (call_chunk call chunks n low)
        else if check_requires low s.running chunks = "met" then
          some ⟨aset s.running (tagOf low) (call low), s.trace ++ [tagOf low]⟩
        else if check_requires low s.running chunks = "fail" then
          some ⟨aset s.running (tagOf low) synthFail, s.trace⟩
        else some s)
      else some ⟨aset s.running (tagOf low) (call low), s.trace ++ [tagOf low]⟩) := rfl

/-- Whenever `call_chunk` returns a state, it preserves every ledger key,
adds the processed chunk's own tag, and preserves duplicate-freeness of the
ledger's keys. -/
theorem call_chunk_keys (call : Chunk → StateResult) (chunks : List Chunk) :
    ∀ (fuel : Nat) (low : Chunk) (s s' : ExecState),
      call_chunk call chunks fuel low s = some s' →
      (∀ k, k ∈ akeys s.running → k ∈ akeys s'.running) ∧
      tagOf low ∈ akeys s'.running ∧
      ((akeys s.running).Nodup → (akeys s'.running).Nodup) := by
  intro fuel
  induction fuel with
  | zero =>
    intro low s s' h
    simp [call_chunk] at h
  | succ n ih =>
    have ihs : ∀ (cs : List Chunk) (s s' : ExecState),
        run_reqs (call_chunk call chunks n) cs s = some s' →
        (∀ k, k ∈ akeys s.running → k ∈ akeys s'.running) ∧
        ((akeys s.running).Nodup → (akeys s'.running).Nodup) := by
      intro cs
      induction cs with
      | nil =>
        intro s s' h
        simp only [run_reqs, Option.some.injEq] at h
        subst h
        exact ⟨fun _ hk => hk, id⟩
      | cons c cs ihc =>
        intro s s' h
        simp only [run_reqs] at h
        cases hc : call_chunk call chunks n c s with
        | none => rw [hc] at h; simp at h
        | some s1 =>
          rw [hc] at h
          simp only [Option.some_bind] at h
          have p1 := ih c s s1 hc
          have p2 := ihc s1 s' h
          exact ⟨fun k hk => p2.1 k (p1.1 k hk), fun hn => p2.2 (p1.2.2 hn)⟩
    intro low s s' h
    by_cases hreq : hasRequire low = true
    · rcases check_requires_cases low s.running chunks with hst | hst | hst
      · rw [call_chunk_succ, if_pos hreq, if_neg (by rw [hst]; decide),
          if_pos hst] at h
        injection h with h'
        subst h'
        refine ⟨fun k hk => ?_, ?_, fun hn => ?_⟩
        · exact (mem_akeys_aset _ _ _ _).mpr (Or.inl hk)
        · exact (mem_akeys_aset _ _ _ _).mpr (Or.inr rfl)
        · exact nodup_akeys_aset _ _ _ hn
      · rw [call_chunk_succ, if_pos hreq, if_pos hst] at h
        cases hr : run_reqs (call_chunk call chunks n) (resolveReqs chunks low) s with
        | none => rw [hr] at h; simp at h
        | some s1 =>
          rw [hr] at h
          simp only [Option.some_bind] at h
          have p1 := ihs (resolveReqs chunks low) s s1 hr
          have p2 := ih low s1 s' h
          exact ⟨fun k hk => p2.1 k (p1.1 k hk), p2.2.1, fun hn => p2.2.2 (p1.2 hn)⟩
      · rw [call_chunk_succ, if_pos hreq, if_neg (by rw [hst]; decide),
          if_neg (by rw [hst]; decide), if_pos hst] at h
        injection h with h'
        subst h'
        refine ⟨fun k hk => ?_, ?_, fun hn => ?_⟩
        · exact (mem_akeys_aset _ _ _ _).mpr (Or.inl hk)
        · exact (mem_akeys_aset _ _ _ _).mpr (Or.inr rfl)
        · exact nodup_akeys_aset _ _ _ hn
    · rw [call_chunk_succ, if_neg hreq] at h
      injection h with h'
      subst h'
      refine ⟨fun k hk => ?_, ?_, fun hn => ?_⟩
      · exact (mem_akeys_aset _ _ _ _).mpr (Or.inl hk)
      · exact (mem_akeys_aset _ _ _ _).mpr (Or.inr rfl)
      · exact nodup_akeys_aset _ _ _ hn

/-- Lifting of `call_chunk_keys` to the sequential driver `run_reqs`: every
input key is preserved, every listed chunk's tag is present in the final
ledger, and key duplicate-freeness is preserved. -/
theorem run_reqs_keys (call : Chunk → StateResult) (chunks : List Chunk) (fuel : Nat) :
    ∀ (cs : List Chunk) (s s' : ExecState),
      run_reqs (call_chunk call chunks fuel) cs s = some s' →
      (∀ k, k ∈ akeys s.running → k ∈ akeys s'.running) ∧
      (∀ c ∈ cs, tagOf c ∈ akeys s'.running) ∧
      ((akeys s.running).Nodup → (akeys s'.running).Nodup) := by
  intro cs
  induction cs with
  | nil =>
    intro s s' h
    simp only [run_reqs, Option.some.injEq] at h
    subst h
    exact ⟨fun _ hk => hk, by simp, id⟩
  | cons c cs ihc =>
    intro s s' h
    simp only [run_reqs] at h
    cases hc : call_chunk call chunks fuel c s with
    | none => rw [hc] at h; simp at h
    | some s1 =>
      rw [hc] at h
      simp only [Option.some_bind] at h
      have p1 := call_chunk_keys call chunks fuel c s s1 hc
      have p2 := ihc s1 s' h
      refine ⟨fun k hk => p2.1 k (p1.1 k hk), fun d hd => ?_,
        fun hn => p2.2.2 (p1.2.2 hn)⟩
      rcases List.mem_cons.mp hd with rfl | hd
      · exact p2.1 (tagOf d) p1.2.1
      · exact p2.2.1 d hd

/-- C2 (counterexample): the claim that `call_chunks` invokes each chunk's
action exactly once per pass — and that a chunk already present in the ledger
is not re-invoked — is false on the code.  For the acyclic pair `w2chunks`
(`w2B` requires `w2A` and precedes it in sorted order), `w2A` is invoked as a
dependency, and then invoked AGAIN when the top-level loop reaches it:
`call_chunk` has no ledger-presence check, so the trace is
`[b.x.f, a.y.g, b.x.f]` and `w2A`'s action runs twice. -/
theorem C2_counterexample :
    (call_chunks w2call w2chunks 5).map (fun s => s.trace) =
      some [tagOf w2A, tagOf w2B, tagOf w2A] ∧
    (call_chunks w2call w2chunks 5).map (fun s => s.trace.count (tagOf w2A)) =
      some 2 := by decide

/-- C2 (amended): for every chunk list with well-formed require lists on
which the pass completes, the ledger returned by `call_chunks` contains
exactly one entry for every chunk's tag (ledger keys stay duplicate-free and
every chunk's tag is recorded).  However, a chunk whose tag is already in the
ledger because it was resolved earlier as a dependency IS re-processed when
its own turn comes in the top-level loop, so its action can be invoked more
than once per pass (its ledger entry being overwritten); only the ledger
itself is deduplicated by tag. -/
theorem C2_amended (call : Chunk → StateResult) (chunks : List Chunk) (fuel : Nat)
    (s' : ExecState) (_hwf : chunks.all wfReq = true)
    (h : call_chunks call chunks fuel = some s') :
    ∀ low ∈ chunks, (akeys s'.running).count (tagOf low) = 1 := by
  intro low hlow
  have props := run_reqs_keys call chunks fuel chunks ⟨[], []⟩ s' h
  have hmem := props.2.1 low hlow
  have hnd : (akeys s'.running).Nodup := props.2.2 (by simp [akeys])
  exact List.count_eq_one_of_mem hnd hmem

/-- C2 (witness): the amended theorem applied to the concrete acyclic pair
`w2chunks`; the pass completes within fuel 5 and both tags have exactly one
ledger entry. -/
theorem C2_amended_witness :
    w2chunks.all wfReq = true ∧
    ∀ low ∈ w2chunks, (akeys w2state.running).count (tagOf low) = 1 :=
  ⟨by decide, C2_amended w2call w2chunks 5 w2state (by decide) (by rfl)⟩

/-- C6: `call_high` fails closed.  If verifying the compiled chunks yields
any error, it returns exactly that non-empty list of validation error
strings, and no chunk's action is invoked — the result does not depend on
the action oracle at all, since `call_chunks` is never entered.  Otherwise it
returns the run ledger from executing all chunks. -/
theorem C6_fail_closed (states : Catalog) (call : Chunk → StateResult)
    (fuel : Nat) (high : High) :
    (verify_chunks states (compile_high_data high) ≠ [] →
      (call_high states call fuel high =
        some (.errors (verify_chunks states (compile_high_data high))) ∧
       ∀ call2 : Chunk → StateResult,
         call_high states call2 fuel high = call_high states call fuel high)) ∧
    (verify_chunks states (compile_high_data high) = [] →
      call_high states call fuel high =
        (call_chunks call (compile_high_data high) fuel).map .ledger) := by
  constructor
  · intro hne
    constructor
    · unfold call_high
      simp [hne]
    · intro call2
      unfold call_high
      simp [hne]
  · intro he
    unfold call_high
    simp [he]

/-- C6 (witness): with an empty catalog, `h6`'s single chunk fails
validation (`st.f` unavailable) and `call_high` returns the error list; with
the one-entry catalog `w6states` validation passes and `call_high` returns
the ledger of `call_chunks`. -/
theorem C6_witness :
    verify_chunks ([] : Catalog) (compile_high_data h6) ≠ [] ∧
    call_high [] w6call 2 h6 =
      some (.errors (verify_chunks [] (compile_high_data h6))) ∧
    verify_chunks w6states (compile_high_data h6) = [] ∧
    call_high w6states w6call 2 h6 =
      (call_chunks w6call (compile_high_data h6) 2).map .ledger :=
  ⟨by decide, ((C6_fail_closed [] w6call 2 h6).1 (by decide)).1, by decide,
    (C6_fail_closed w6states w6call 2 h6).2 (by decide)⟩

/-- C10: whenever template compilation yields empty high data, the entry
points return that empty high data unchanged.  A path that is not an
existing file compiles to empty high data; `call_template` then returns
`TemplateCallResult.highData []` — neither an error list nor a ledger — and
its result does not depend on the catalog or the action oracle (no
validation, no execution).  Likewise `call_template_str` when the renderer
returns empty high data. -/
theorem C10_empty_high (states : Catalog) (call : Chunk → StateResult)
    (isfile : String → Bool) (rend : String → High)
    (rendE : String → Except String High) (fuel : Nat) (t : String) :
    (isfile t = false → compile_template isfile rend t = []) ∧
    (compile_template isfile rend t = [] →
      (call_template states call isfile rend fuel t = some (.highData []) ∧
       ∀ (states2 : Catalog) (call2 : Chunk → StateResult),
         call_template states2 call2 isfile rend fuel t =
           call_template states call isfile rend fuel t)) ∧
    (rendE t = .ok ([] : High) →
      (call_template_str states call rendE fuel t = .ok (some (.highData [])) ∧
       ∀ (states2 : Catalog) (call2 : Chunk → StateResult),
         call_template_str states2 call2 rendE fuel t =
           call_template_str states call rendE fuel t)) := by
  refine ⟨fun hf => ?_, fun hc => ⟨?_, ?_⟩, fun hr => ⟨?_, ?_⟩⟩
  · unfold compile_template
    simp [hf]
  · unfold call_template
    rw [hc]
    rfl
  · intro states2 call2
    unfold call_template
    rw [hc]
    rfl
  · unfold call_template_str compile_template_str
    rw [hr]
    rfl
  · intro states2 call2
    unfold call_template_str compile_template_str
    rw [hr]
    rfl

/-- C10 (witness): the theorem instantiated with a file system containing no
files and a renderer returning empty high data. -/
theorem C10_witness :
    w10isfile "top.sls" = false ∧
    compile_template w10isfile w10rend "top.sls" = [] ∧
    call_template [] w10call w10isfile w10rend 1 "top.sls" =
      some (.highData []) ∧
    w10rendE "literal text" = .ok ([] : High) ∧
    call_template_str [] w10call w10rendE 1 "literal text" =
      .ok (some (.highData [])) :=
  ⟨rfl,
   (C10_empty_high [] w10call w10isfile w10rend w10rendE 1 "top.sls").1 rfl,
   ((C10_empty_high [] w10call w10isfile w10rend w10rendE 1 "top.sls").2.1 rfl).1,
   rfl,
   ((C10_empty_high [] w10call w10isfile w10rend w10rendE 1 "literal text").2.2 rfl).1⟩
